import Mathlib

/-!
Verification of the variational-inference core of the pymdp-kg repository
(src/inferactively/core/inference.py).

The file embeds `update_posterior_states`, `run_FPI` and `run_FPI_faster`
shallowly.  Machine floats are modelled as elements of a linear ordered
field `α`; the transcendental helpers `exp` and `log` of the underlying
math library are abstract function parameters.  The helper functions
`spm_dot` and `softmax` are imported by the source from a module of the
repository that is not part of src/, so they are modelled from the spec
(sections 4.2, 4.3, 6 of spec.md); every definition that does so says it
in its doc comment.  A joint tensor over the hidden-state factors is
embedded as a function from the list of per-factor indices to `α`, and a
collection of per-factor vectors as a list of lists.
-/

namespace PymdpKG

variable {α : Type} [LinearOrderedField α]

/-- All index configurations of the joint hidden-state space with the
given per-factor cardinalities, in lexicographic order. -/
def configs : List Nat → List (List Nat)
  | [] => [[]]
  | n :: ns => (List.range n).flatMap fun i => (configs ns).map fun c => i :: c

/-- Dot product of two vectors (`np.dot` on equal-length 1-D arrays). -/
def dotv (u v : List α) : α := (List.zipWith (fun a b => a * b) u v).sum

/-- Elementwise sum of two vectors (numpy `+` on equal-length 1-D arrays). -/
def vadd (u v : List α) : List α := List.zipWith (fun a b => a + b) u v

/-- Maximum entry of a vector (`np.max`); `0` on the empty vector. -/
def listMax : List α → α
  | [] => 0
  | x :: xs => xs.foldl max x

/-- Modelled from the spec: the numerically stable softmax consumed by the
solver (spec section 6, "log-domain shift-and-normalize"); the module
defining the source's `softmax` is not under src/. -/
def softmax (exp : α → α) (v : List α) : List α :=
  let e := v.map fun x => exp (x - listMax v)
  e.map fun x => x / e.sum

/-- Entry `i` of the belief vector of factor `f` (`qx[f][i]`). -/
def qval (qx : List (List α)) (f i : Nat) : α := (qx.getD f []).getD i 0

/-- Product of the belief weights of every factor other than `f` at
configuration `c` (the mean-field weight used when marginalizing onto
factor `f`). -/
def weightExcept (qx : List (List α)) (f : Nat) (c : List Nat) : α :=
  (((List.range c.length).filter fun f2 => f2 != f).map
    fun f2 => qval qx f2 (c.getD f2 0)).prod

/-- Product of the belief weights of every factor at configuration `c`. -/
def weightAll (qx : List (List α)) (c : List Nat) : α :=
  ((List.range c.length).map fun f2 => qval qx f2 (c.getD f2 0)).prod

/-- Modelled from the spec: the generalized marginalization primitive
`spm_dot(X, x, dims_to_omit)` consumed by the solver with one kept factor
(spec section 6); its defining module is not under src/.  Sums the joint
tensor over every factor other than `f`, each weighted by its belief
vector, producing the marginal vector over factor `f`. -/
def spm_dot_keep (L : List Nat → α) (Ns : List Nat) (qx : List (List α)) (f : Nat) : List α :=
  (List.range (Ns.getD f 0)).map fun i =>
    (((configs Ns).filter fun c => c.getD f 0 == i).map
      fun c => L c * weightExcept qx f c).sum

/-- Modelled from the spec: `spm_dot` contracting all axes (spec section 6,
"contracting all axes, used to compute the scalar expected-log-likelihood
term"); its defining module is not under src/. -/
def spm_dot_full (L : List Nat → α) (Ns : List Nat) (qx : List (List α)) : α :=
  ((configs Ns).map fun c => L c * weightAll qx c).sum

/-- Modelled from the spec: `spm_dot(A, observation, obs_mode=True)`
(spec sections 4.2 and 6) — contract the distinguished leading outcome
axis of the likelihood tensor against the one-hot observation vector;
its defining module is not under src/. -/
def spm_dot_obs (A : List Nat → α) (No : Nat) (obs : List α) : List Nat → α :=
  fun c => ((List.range No).map fun o => obs.getD o 0 * A (o :: c)).sum

/-- The numerical floor `1e-16` added before taking logarithms
(inference.py lines 162 and 231). -/
def epsFloor : α := 1 / 10 ^ 16

/-- The joint log-likelihood tensor `L` built by `run_FPI` (inference.py
lines 152-162): the all-ones tensor multiplied by each modality's
observation-contracted likelihood slice, floored and taken to log. -/
def jointL (log : α → α) (A : List (List Nat → α)) (No : List Nat)
    (obs : List (List α)) : List Nat → α :=
  fun c =>
    log (((List.range No.length).map fun g =>
      spm_dot_obs (A.getD g fun _ => 0) (No.getD g 0) (obs.getD g []) c).prod + epsFloor)

/-- The flat initialization of the posterior (inference.py lines 165-167):
`qx[f] = np.ones(Ns[f]) / Ns[f]`. -/
def uniformQx (Ns : List Nat) : List (List α) :=
  Ns.map fun n => (List.range n).map fun _ => 1 / (n : α)

/-- The per-factor entropy term `-qx[f].dot(np.log(qx[f] + 1e-16))`
(inference.py lines 184 and 231). -/
def entropyTerm (log : α → α) (qxf : List α) : α :=
  -(dotv qxf (qxf.map fun x => log (x + epsFloor)))

/-- The per-factor cross-entropy-with-prior term `-qx[f].dot(prior[f])`
(inference.py lines 185 and 232). -/
def crossTerm (qxf pf : List α) : α := -(dotv qxf pf)

/-- The sum over factors of entropy plus cross-entropy terms; this is the
whole of the initial `F_prev` (inference.py lines 182-186) and the first
part of the in-loop free energy (lines 230-233). -/
def fTerms (log : α → α) (Nf : Nat) (prior qx : List (List α)) : α :=
  ((List.range Nf).map fun f =>
    entropyTerm log (qx.getD f []) + crossTerm (qx.getD f []) (prior.getD f [])).sum

/-- The in-loop free energy `F` (inference.py lines 230-236): entropy and
cross-entropy terms summed over factors minus the expected log-likelihood
`spm_dot(L, qx)[0]`. -/
def freeEnergy (log : α → α) (L : List Nat → α) (Ns : List Nat)
    (prior qx : List (List α)) : α :=
  fTerms log Ns.length prior qx - spm_dot_full L Ns qx

/-- One posterior update of `run_FPI` (inference.py lines 212-214):
`qL = spm_dot(L, qx, [f]); qx[f] = softmax(qL + prior[f])`. -/
def fpiUpdate (exp : α → α) (L : List Nat → α) (Ns : List Nat)
    (prior : List (List α)) (qx : List (List α)) (f : Nat) : List (List α) :=
  qx.set f (softmax exp (vadd (spm_dot_keep L Ns qx f) (prior.getD f [])))

/-- One pass of `run_FPI` over a factor order (the inner `for f in
factor_order` loop, inference.py lines 207-214). -/
def fpiPass (exp : α → α) (L : List Nat → α) (Ns : List Nat)
    (prior : List (List α)) (order : List Nat) (qx : List (List α)) : List (List α) :=
  order.foldl (fpiUpdate exp L Ns prior) qx

/-- The ascending factor order `range(Nf)` (inference.py line 204). -/
def ascOrder (Nf : Nat) : List Nat := List.range Nf

/-- The descending factor order `range(Nf - 1, -1, -1)`
(inference.py line 206). -/
def descOrder (Nf : Nat) : List Nat := (List.range Nf).reverse

/-- One full iteration of `run_FPI` (the `for f_loop in range(2)` body,
inference.py lines 202-214): an ascending pass followed by a descending
pass. -/
def fpiIter (exp : α → α) (L : List Nat → α) (Ns : List Nat)
    (prior : List (List α)) (qx : List (List α)) : List (List α) :=
  fpiPass exp L Ns prior (descOrder Ns.length) (fpiPass exp L Ns prior (ascOrder Ns.length) qx)

/-- The marginal `qL` of `run_FPI_faster` (inference.py lines 351-358):
divide the precomputed joint tensor `X` by the visited factor's own
belief and sum over every axis other than `f`. -/
def fasterQL (X : List Nat → α) (Ns : List Nat) (qx : List (List α)) (f : Nat) : List α :=
  (List.range (Ns.getD f 0)).map fun i =>
    (((configs Ns).filter fun c => c.getD f 0 == i).map
      fun c => X c * (1 / qval qx f (c.getD f 0))).sum

/-- One posterior update of `run_FPI_faster` (inference.py lines 351-360). -/
def fasterUpdate (exp : α → α) (X : List Nat → α) (Ns : List Nat)
    (prior : List (List α)) (qx : List (List α)) (f : Nat) : List (List α) :=
  qx.set f (softmax exp (vadd (fasterQL X Ns qx f) (prior.getD f [])))

/-- One pass of `run_FPI_faster` (inference.py lines 342-360): the working
tensor `X = L * all current beliefs` is built once at the start of the
pass, then every factor of the order is updated against that fixed `X`. -/
def fasterPass (exp : α → α) (L : List Nat → α) (Ns : List Nat)
    (prior : List (List α)) (order : List Nat) (qx : List (List α)) : List (List α) :=
  order.foldl (fasterUpdate exp (fun c => L c * weightAll qx c) Ns prior) qx

/-- One full iteration of `run_FPI_faster` (inference.py lines 336-360):
ascending pass then descending pass, each with its own rebuilt `X`. -/
def fasterIter (exp : α → α) (L : List Nat → α) (Ns : List Nat)
    (prior : List (List α)) (qx : List (List α)) : List (List α) :=
  fasterPass exp L Ns prior (descOrder Ns.length) (fasterPass exp L Ns prior (ascOrder Ns.length) qx)

/-- The `while iter_i < num_iter` loop shared by both solvers
(inference.py lines 195-254 and 332-388), instrumented with the number of
executed iterations.  Each executed iteration recomputes the posterior
with `iterF`, recomputes the free energy with `Fof`, and breaks when the
absolute free-energy change falls strictly below `dF_tol`; `F_prev` is
overwritten before the break test, exactly as in the source. -/
def fpiLoop (iterF : List (List α) → List (List α)) (Fof : List (List α) → α)
    (dF_tol : α) : Nat → List (List α) → α → List (List α) × Nat
  | 0, qx, _ => (qx, 0)
  | n + 1, qx, F_prev =>
    let qx2 := iterF qx
    let F := Fof qx2
    if |F_prev - F| < dF_tol then (qx2, 1)
    else
      let r := fpiLoop iterF Fof dF_tol n qx2 F
      (r.1, r.2 + 1)

/-- The sequence of `(qx, F_prev)` states reached after `k` executed
iterations of the loop, starting from a given initialization. -/
def iterSeq (iterF : List (List α) → List (List α)) (Fof : List (List α) → α)
    (qx0 : List (List α)) (F0 : α) : Nat → List (List α) × α
  | 0 => (qx0, F0)
  | k + 1 =>
    let s := iterSeq iterF Fof qx0 F0 k
    (iterF s.1, Fof (iterF s.1))

/-- `run_FPI` (inference.py lines 122-254): build the joint log-likelihood,
initialize the posterior flat and `F_prev` from it, return the one-step
closed form for a single factor, otherwise run the bidirectional-sweep
loop.  The source returns the bare vector `qx[0]` in the single-factor
case; the embedding returns it as the one-element collection. -/
def run_FPI (exp log : α → α) (A : List (List Nat → α)) (obs : List (List α))
    (prior : List (List α)) (No Ns : List Nat) (num_iter : Nat) (dF_tol : α) :
    List (List α) :=
  let L := jointL log A No obs
  let qx0 := uniformQx Ns
  let F0 := fTerms log Ns.length prior qx0
  if Ns.length = 1 then
    [softmax exp (vadd (spm_dot_keep L Ns qx0 0) (prior.getD 0 []))]
  else
    (fpiLoop (fpiIter exp L Ns prior) (freeEnergy log L Ns prior) dF_tol num_iter qx0 F0).1

/-- `run_FPI_faster` (inference.py lines 257-388): identical to `run_FPI`
except that each pass multiplies all current beliefs into one working
tensor before summing out (the joint-then-divide strategy). -/
def run_FPI_faster (exp log : α → α) (A : List (List Nat → α)) (obs : List (List α))
    (prior : List (List α)) (No Ns : List Nat) (num_iter : Nat) (dF_tol : α) :
    List (List α) :=
  let L := jointL log A No obs
  let qx0 := uniformQx Ns
  let F0 := fTerms log Ns.length prior qx0
  if Ns.length = 1 then
    [softmax exp (vadd (spm_dot_keep L Ns qx0 0) (prior.getD 0 []))]
  else
    (fpiLoop (fasterIter exp L Ns prior) (freeEnergy log L Ns prior) dF_tol num_iter qx0 F0).1

/-- The method-dispatch stage of `update_posterior_states` (inference.py
lines 103-119), applied to already-canonicalized inputs.  `FPI` runs the
fixed-point solver; each of the five recognized but unimplemented names
raises `NotImplementedError` (modelled as an error value); any other
string reaches `return qx` with `qx` never assigned, which raises
`UnboundLocalError` in Python. -/
def updatePosteriorStates (exp log : α → α) (A : List (List Nat → α))
    (obs prior : List (List α)) (No Ns : List Nat) (method : String)
    (num_iter : Nat) (dF_tol : α) : Except String (List (List α)) :=
  if method = "FPI" then
    Except.ok (run_FPI exp log A obs prior No Ns num_iter dF_tol)
  else if method = "VMP" then Except.error ("VMP is not implemented")
  else if method = "MMP" then Except.error ("MMP is not implemented")
  else if method = "BP" then Except.error ("BP is not implemented")
  else if method = "EP" then Except.error ("EP is not implemented")
  else if method = "CV" then Except.error ("CV is not implemented")
  else Except.error ("UnboundLocalError: local variable qx referenced before assignment")

/-- The loop of `run_FPI` instrumented with its executed-iteration count. -/
def run_FPI_instr (exp log : α → α) (A : List (List Nat → α)) (obs : List (List α))
    (prior : List (List α)) (No Ns : List Nat) (num_iter : Nat) (dF_tol : α) :
    List (List α) × Nat :=
  fpiLoop (fpiIter exp (jointL log A No obs) Ns prior)
    (freeEnergy log (jointL log A No obs) Ns prior) dF_tol num_iter
    (uniformQx Ns) (fTerms log Ns.length prior (uniformQx Ns))

/-- The `(qx, F_prev)` state of `run_FPI` after `k` executed iterations. -/
def run_FPI_states (exp log : α → α) (A : List (List Nat → α)) (obs : List (List α))
    (prior : List (List α)) (No Ns : List Nat) (k : Nat) : List (List α) × α :=
  iterSeq (fpiIter exp (jointL log A No obs) Ns prior)
    (freeEnergy log (jointL log A No obs) Ns prior)
    (uniformQx Ns) (fTerms log Ns.length prior (uniformQx Ns)) k

/-- The free-energy change `dF` computed during executed iteration `k`
(0-based) of `run_FPI`. -/
def run_FPI_dF (exp log : α → α) (A : List (List Nat → α)) (obs : List (List α))
    (prior : List (List α)) (No Ns : List Nat) (k : Nat) : α :=
  |(run_FPI_states exp log A obs prior No Ns k).2 -
    (run_FPI_states exp log A obs prior No Ns (k + 1)).2|

/-- The loop of `run_FPI_faster` instrumented with its executed-iteration
count. -/
def run_FPI_faster_instr (exp log : α → α) (A : List (List Nat → α)) (obs : List (List α))
    (prior : List (List α)) (No Ns : List Nat) (num_iter : Nat) (dF_tol : α) :
    List (List α) × Nat :=
  fpiLoop (fasterIter exp (jointL log A No obs) Ns prior)
    (freeEnergy log (jointL log A No obs) Ns prior) dF_tol num_iter
    (uniformQx Ns) (fTerms log Ns.length prior (uniformQx Ns))

/-- The `(qx, F_prev)` state of `run_FPI_faster` after `k` executed
iterations. -/
def run_FPI_faster_states (exp log : α → α) (A : List (List Nat → α)) (obs : List (List α))
    (prior : List (List α)) (No Ns : List Nat) (k : Nat) : List (List α) × α :=
  iterSeq (fasterIter exp (jointL log A No obs) Ns prior)
    (freeEnergy log (jointL log A No obs) Ns prior)
    (uniformQx Ns) (fTerms log Ns.length prior (uniformQx Ns)) k

/-- The free-energy change `dF` computed during executed iteration `k` of
`run_FPI_faster`. -/
def run_FPI_faster_dF (exp log : α → α) (A : List (List Nat → α)) (obs : List (List α))
    (prior : List (List α)) (No Ns : List Nat) (k : Nat) : α :=
  |(run_FPI_faster_states exp log A obs prior No Ns k).2 -
    (run_FPI_faster_states exp log A obs prior No Ns (k + 1)).2|

/-- Follows the spec's words (section 4.3): "compute an expected
log-likelihood contribution by marginalizing `L` over all factors other
than `f`, weighted by the current beliefs `qx` of those other factors" —
the claim-side description of the update marginal, to be compared with
the source-side `spm_dot_keep`. -/
def marginalizeOthers (L : List Nat → α) (Ns : List Nat) (qx : List (List α))
    (f : Nat) : List α :=
  (List.range (Ns.getD f 0)).map fun i =>
    ((configs Ns).map fun c =>
      if c.getD f 0 == i then weightExcept qx f c * L c else 0).sum

/-- A valid categorical vector: all entries non-negative and summing to 1. -/
def ValidDist (v : List α) : Prop := (∀ x ∈ v, 0 ≤ x) ∧ v.sum = 1

/-! ### Helper lemmas about vectors and softmax -/

theorem list_sum_map_div (l : List α) (s : α) :
    (l.map fun x => x / s).sum = l.sum / s := by
  induction l with
  | nil => simp
  | cons a l ih => simp [ih, add_div]

theorem softmax_length (exp : α → α) (v : List α) :
    (softmax exp v).length = v.length := by
  simp [softmax]

theorem softmax_nonneg (exp : α → α) (hexp : ∀ x, 0 < exp x) (v : List α) :
    ∀ x ∈ softmax exp v, 0 ≤ x := by
  intro x hx
  unfold softmax at hx
  obtain ⟨y, hy, rfl⟩ := List.mem_map.mp hx
  obtain ⟨z, hz, rfl⟩ := List.mem_map.mp hy
  have hne : (v.map fun x => exp (x - listMax v)) ≠ [] := by
    simp only [ne_eq, List.map_eq_nil_iff]
    exact List.ne_nil_of_mem hz
  have hpos : ∀ x ∈ v.map fun x => exp (x - listMax v), 0 < x := by
    intro x hx2
    obtain ⟨w, hw, rfl⟩ := List.mem_map.mp hx2
    exact hexp _
  have hsum : 0 < (v.map fun x => exp (x - listMax v)).sum := List.sum_pos _ hpos hne
  exact le_of_lt (div_pos (hexp _) hsum)

theorem softmax_sum_one (exp : α → α) (hexp : ∀ x, 0 < exp x) (v : List α) (hv : v ≠ []) :
    (softmax exp v).sum = 1 := by
  unfold softmax
  have hne : (v.map fun x => exp (x - listMax v)) ≠ [] := by
    simpa using hv
  have hpos : ∀ x ∈ v.map fun x => exp (x - listMax v), 0 < x := by
    intro x hx2
    obtain ⟨w, hw, rfl⟩ := List.mem_map.mp hx2
    exact hexp _
  have hsum : 0 < (v.map fun x => exp (x - listMax v)).sum := List.sum_pos _ hpos hne
  rw [list_sum_map_div]
  exact div_self (ne_of_gt hsum)

theorem softmax_valid (exp : α → α) (hexp : ∀ x, 0 < exp x) (v : List α) (hv : v ≠ []) :
    ValidDist (softmax exp v) :=
  ⟨softmax_nonneg exp hexp v, softmax_sum_one exp hexp v hv⟩

theorem uniformQx_valid (Ns : List Nat) (hNs : ∀ n ∈ Ns, 0 < n) :
    ∀ v ∈ (uniformQx Ns : List (List α)), ValidDist v := by
  intro v hv
  obtain ⟨n, hn, rfl⟩ := List.mem_map.mp hv
  constructor
  · intro x hx
    obtain ⟨i, hi, rfl⟩ := List.mem_map.mp hx
    have : (0 : α) < n := by exact_mod_cast hNs n hn
    positivity
  · have hrepl : ((List.range n).map fun _ => (1 / (n : α))) = List.replicate n (1 / (n : α)) := by
      rw [List.map_const']
      simp
    rw [hrepl, List.sum_replicate, nsmul_eq_mul]
    have hn0 : ((n : α)) ≠ 0 := by
      have : (0 : α) < n := by exact_mod_cast hNs n hn
      exact ne_of_gt this
    field_simp

/-! ### Helper lemmas about configurations and marginalization -/

theorem flatMap_singleton_eq_map (l : List Nat) (g : Nat → List Nat) :
    (l.flatMap fun i => [g i]) = l.map g := by
  induction l with
  | nil => rfl
  | cons a l ih => simp [ih]

theorem configs_single (n : Nat) : configs [n] = (List.range n).map fun i => [i] := by
  show ((List.range n).flatMap fun i => (configs []).map fun c => i :: c)
      = (List.range n).map fun i => [i]
  simp only [configs, List.map_cons, List.map_nil]
  exact flatMap_singleton_eq_map (List.range n) fun i => [i]

theorem range_filter_of_le (n i : Nat) (h : n ≤ i) :
    (List.range n).filter (fun j => j == i) = [] := by
  rw [List.filter_eq_nil_iff]
  intro a ha
  have : a < n := List.mem_range.mp ha
  simp only [beq_iff_eq]
  omega

theorem range_filter_self (n i : Nat) (h : i < n) :
    (List.range n).filter (fun j => j == i) = [i] := by
  induction n with
  | zero => omega
  | succ n ih =>
    rw [List.range_succ, List.filter_append]
    by_cases hi : i < n
    · rw [ih hi]
      have hne : (n == i) = false := by
        simp only [beq_eq_false_iff_ne, ne_eq]
        omega
      simp [hne]
    · have hin : i = n := by omega
      subst hin
      rw [range_filter_of_le i i (le_refl i)]
      simp

theorem weightExcept_single (qx : List (List α)) (i : Nat) :
    weightExcept qx 0 [i] = 1 := by
  simp [weightExcept, List.range_succ]

theorem single_factor_marginal (L : List Nat → α) (n : Nat) (qx : List (List α)) :
    spm_dot_keep L [n] qx 0 = (List.range n).map fun i => L [i] := by
  unfold spm_dot_keep
  have hget : ([n] : List Nat).getD 0 0 = n := rfl
  rw [hget]
  apply List.map_congr_left
  intro i hi
  have hin : i < n := List.mem_range.mp hi
  rw [configs_single, List.filter_map]
  have hcomp : ((fun c => c.getD 0 0 == i) ∘ fun j => ([j] : List Nat)) = fun j => j == i := by
    funext j
    rfl
  rw [hcomp, range_filter_self n i hin]
  simp [weightExcept_single]

theorem sum_map_filter_eq_sum_ite {β : Type} (p : β → Bool) (g : β → α) (l : List β) :
    ((l.filter p).map g).sum = (l.map fun x => if p x then g x else 0).sum := by
  induction l with
  | nil => rfl
  | cons a l ih =>
    by_cases hp : p a
    · simp [List.filter_cons, hp, ih]
    · simp [List.filter_cons, hp, ih]

theorem spm_dot_keep_eq_marginalizeOthers (L : List Nat → α) (Ns : List Nat)
    (qx : List (List α)) (f : Nat) :
    spm_dot_keep L Ns qx f = marginalizeOthers L Ns qx f := by
  unfold spm_dot_keep marginalizeOthers
  apply List.map_congr_left
  intro i _
  rw [sum_map_filter_eq_sum_ite]
  apply congrArg List.sum
  apply List.map_congr_left
  intro c _
  split
  · exact mul_comm _ _
  · rfl

/-! ### Helper lemmas about the iteration loop -/

theorem iterSeq_shift (iterF : List (List α) → List (List α)) (Fof : List (List α) → α)
    (qx0 : List (List α)) (F0 : α) (k : Nat) :
    iterSeq iterF Fof (iterF qx0) (Fof (iterF qx0)) k = iterSeq iterF Fof qx0 F0 (k + 1) := by
  induction k with
  | zero => rfl
  | succ k ih => simp only [iterSeq, ih]

theorem fpiLoop_le (iterF : List (List α) → List (List α)) (Fof : List (List α) → α)
    (tol : α) (n : Nat) : ∀ qx0 F0, (fpiLoop iterF Fof tol n qx0 F0).2 ≤ n := by
  induction n with
  | zero => intro qx0 F0; exact le_refl 0
  | succ n ih =>
    intro qx0 F0
    simp only [fpiLoop]
    by_cases hc : |F0 - Fof (iterF qx0)| < tol
    · simp only [hc, if_true]
      omega
    · simp only [hc, if_false]
      have := ih (iterF qx0) (Fof (iterF qx0))
      omega

theorem fpiLoop_qx (iterF : List (List α) → List (List α)) (Fof : List (List α) → α)
    (tol : α) (n : Nat) : ∀ qx0 F0,
    (fpiLoop iterF Fof tol n qx0 F0).1
      = (iterSeq iterF Fof qx0 F0 (fpiLoop iterF Fof tol n qx0 F0).2).1 := by
  induction n with
  | zero => intro qx0 F0; rfl
  | succ n ih =>
    intro qx0 F0
    simp only [fpiLoop]
    by_cases hc : |F0 - Fof (iterF qx0)| < tol
    · simp only [hc, if_true]
      rfl
    · simp only [hc, if_false]
      rw [← iterSeq_shift iterF Fof qx0 F0]
      exact ih (iterF qx0) (Fof (iterF qx0))

theorem fpiLoop_no_early (iterF : List (List α) → List (List α)) (Fof : List (List α) → α)
    (tol : α) (n : Nat) : ∀ qx0 F0 k, k + 1 < (fpiLoop iterF Fof tol n qx0 F0).2 →
    ¬ |(iterSeq iterF Fof qx0 F0 k).2 - (iterSeq iterF Fof qx0 F0 (k + 1)).2| < tol := by
  induction n with
  | zero => intro qx0 F0 k hk; simp only [fpiLoop] at hk; omega
  | succ n ih =>
    intro qx0 F0 k hk
    simp only [fpiLoop] at hk ⊢
    by_cases hc : |F0 - Fof (iterF qx0)| < tol
    · simp only [hc, if_true] at hk
      omega
    · simp only [hc, if_false] at hk
      match k with
      | 0 => exact hc
      | j + 1 =>
        have hj : j + 1 < (fpiLoop iterF Fof tol n (iterF qx0) (Fof (iterF qx0))).2 := by omega
        have := ih (iterF qx0) (Fof (iterF qx0)) j hj
        rw [iterSeq_shift iterF Fof qx0 F0 j, iterSeq_shift iterF Fof qx0 F0 (j + 1)] at this
        exact this

theorem fpiLoop_stop (iterF : List (List α) → List (List α)) (Fof : List (List α) → α)
    (tol : α) (n : Nat) : ∀ qx0 F0, (fpiLoop iterF Fof tol n qx0 F0).2 < n →
    0 < (fpiLoop iterF Fof tol n qx0 F0).2 ∧
      |(iterSeq iterF Fof qx0 F0 ((fpiLoop iterF Fof tol n qx0 F0).2 - 1)).2 -
        (iterSeq iterF Fof qx0 F0 (fpiLoop iterF Fof tol n qx0 F0).2).2| < tol := by
  induction n with
  | zero => intro qx0 F0 h; omega
  | succ n ih =>
    intro qx0 F0 h
    simp only [fpiLoop] at h ⊢
    by_cases hc : |F0 - Fof (iterF qx0)| < tol
    · simp only [hc, if_true]
      constructor
      · omega
      · exact hc
    · simp only [hc, if_false] at h ⊢
      have hlt : (fpiLoop iterF Fof tol n (iterF qx0) (Fof (iterF qx0))).2 < n := by omega
      obtain ⟨hpos, hdf⟩ := ih (iterF qx0) (Fof (iterF qx0)) hlt
      simp only [iterSeq_shift iterF Fof qx0 F0] at hdf
      have h3 : (fpiLoop iterF Fof tol n (iterF qx0) (Fof (iterF qx0))).2 - 1 + 1
          = (fpiLoop iterF Fof tol n (iterF qx0) (Fof (iterF qx0))).2 := by omega
      rw [h3] at hdf
      constructor
      · omega
      · simpa only [Nat.add_sub_cancel] using hdf

theorem fpiLoop_preserves (iterF : List (List α) → List (List α)) (Fof : List (List α) → α)
    (tol : α) (P : List (List α) → Prop) (hiter : ∀ qx, P qx → P (iterF qx)) (n : Nat) :
    ∀ qx0 F0, P qx0 → P (fpiLoop iterF Fof tol n qx0 F0).1 := by
  induction n with
  | zero => intro qx0 F0 h; exact h
  | succ n ih =>
    intro qx0 F0 h
    simp only [fpiLoop]
    by_cases hc : |F0 - Fof (iterF qx0)| < tol
    · simp only [hc, if_true]
      exact hiter qx0 h
    · simp only [hc, if_false]
      exact ih (iterF qx0) (Fof (iterF qx0)) (hiter qx0 h)

theorem getD_mem_of_lt {β : Type} {l : List β} {f : Nat} (h : f < l.length) (d : β) :
    l.getD f d ∈ l := by
  rw [List.getD_eq_getElem l d h]
  exact List.getElem_mem h

theorem vadd_softmax_valid (exp : α → α) (Ns : List Nat) (prior : List (List α))
    (hexp : ∀ x, 0 < exp x) (hNs : ∀ n ∈ Ns, 0 < n)
    (hprior : ∀ f, (prior.getD f []).length = Ns.getD f 0)
    (w : List α) (f : Nat) (hf : f < Ns.length) (hw : w.length = Ns.getD f 0) :
    ValidDist (softmax exp (vadd w (prior.getD f []))) := by
  apply softmax_valid exp hexp
  apply List.ne_nil_of_length_pos
  have hlen : (vadd w (prior.getD f [])).length = Ns.getD f 0 := by
    have hp := hprior f
    simp only [vadd, List.length_zipWith, hw, hp, min_self]
  rw [hlen]
  exact hNs _ (getD_mem_of_lt hf 0)

theorem fpiUpdate_valid (exp : α → α) (L : List Nat → α) (Ns : List Nat) (prior : List (List α))
    (hexp : ∀ x, 0 < exp x) (hNs : ∀ n ∈ Ns, 0 < n)
    (hprior : ∀ f, (prior.getD f []).length = Ns.getD f 0)
    (qx : List (List α)) (f : Nat) (hf : f < Ns.length)
    (hqx : ∀ v ∈ qx, ValidDist v) :
    ∀ v ∈ fpiUpdate exp L Ns prior qx f, ValidDist v := by
  intro v hv
  unfold fpiUpdate at hv
  rcases List.mem_or_eq_of_mem_set hv with h | h
  · exact hqx v h
  · subst h
    apply vadd_softmax_valid exp Ns prior hexp hNs hprior _ f hf
    simp [spm_dot_keep]

theorem fasterUpdate_valid (exp : α → α) (X : List Nat → α) (Ns : List Nat) (prior : List (List α))
    (hexp : ∀ x, 0 < exp x) (hNs : ∀ n ∈ Ns, 0 < n)
    (hprior : ∀ f, (prior.getD f []).length = Ns.getD f 0)
    (qx : List (List α)) (f : Nat) (hf : f < Ns.length)
    (hqx : ∀ v ∈ qx, ValidDist v) :
    ∀ v ∈ fasterUpdate exp X Ns prior qx f, ValidDist v := by
  intro v hv
  unfold fasterUpdate at hv
  rcases List.mem_or_eq_of_mem_set hv with h | h
  · exact hqx v h
  · subst h
    apply vadd_softmax_valid exp Ns prior hexp hNs hprior _ f hf
    simp [fasterQL]

theorem fpiFold_valid (exp : α → α) (L : List Nat → α) (Ns : List Nat) (prior : List (List α))
    (hexp : ∀ x, 0 < exp x) (hNs : ∀ n ∈ Ns, 0 < n)
    (hprior : ∀ f, (prior.getD f []).length = Ns.getD f 0)
    (order : List Nat) (hord : ∀ f ∈ order, f < Ns.length) :
    ∀ qx, (∀ v ∈ qx, ValidDist v) →
      ∀ v ∈ order.foldl (fpiUpdate exp L Ns prior) qx, ValidDist v := by
  induction order with
  | nil => intro qx h; simpa using h
  | cons a l ih =>
    intro qx h
    simp only [List.foldl_cons]
    exact ih (fun f hf => hord f (List.mem_cons_of_mem a hf)) _
      (fpiUpdate_valid exp L Ns prior hexp hNs hprior qx a (hord a (List.mem_cons_self a l)) h)

theorem fasterFold_valid (exp : α → α) (X : List Nat → α) (Ns : List Nat) (prior : List (List α))
    (hexp : ∀ x, 0 < exp x) (hNs : ∀ n ∈ Ns, 0 < n)
    (hprior : ∀ f, (prior.getD f []).length = Ns.getD f 0)
    (order : List Nat) (hord : ∀ f ∈ order, f < Ns.length) :
    ∀ qx, (∀ v ∈ qx, ValidDist v) →
      ∀ v ∈ order.foldl (fasterUpdate exp X Ns prior) qx, ValidDist v := by
  induction order with
  | nil => intro qx h; simpa using h
  | cons a l ih =>
    intro qx h
    simp only [List.foldl_cons]
    exact ih (fun f hf => hord f (List.mem_cons_of_mem a hf)) _
      (fasterUpdate_valid exp X Ns prior hexp hNs hprior qx a (hord a (List.mem_cons_self a l)) h)

theorem ascOrder_lt (Nf : Nat) : ∀ f ∈ ascOrder Nf, f < Nf := by
  intro f hf
  exact List.mem_range.mp hf

theorem descOrder_lt (Nf : Nat) : ∀ f ∈ descOrder Nf, f < Nf := by
  intro f hf
  exact List.mem_range.mp (List.mem_reverse.mp hf)

theorem fpiIter_valid (exp : α → α) (L : List Nat → α) (Ns : List Nat) (prior : List (List α))
    (hexp : ∀ x, 0 < exp x) (hNs : ∀ n ∈ Ns, 0 < n)
    (hprior : ∀ f, (prior.getD f []).length = Ns.getD f 0)
    (qx : List (List α)) (hqx : ∀ v ∈ qx, ValidDist v) :
    ∀ v ∈ fpiIter exp L Ns prior qx, ValidDist v := by
  unfold fpiIter fpiPass
  exact fpiFold_valid exp L Ns prior hexp hNs hprior _ (descOrder_lt Ns.length) _
    (fpiFold_valid exp L Ns prior hexp hNs hprior _ (ascOrder_lt Ns.length) qx hqx)

theorem fasterIter_valid (exp : α → α) (L : List Nat → α) (Ns : List Nat) (prior : List (List α))
    (hexp : ∀ x, 0 < exp x) (hNs : ∀ n ∈ Ns, 0 < n)
    (hprior : ∀ f, (prior.getD f []).length = Ns.getD f 0)
    (qx : List (List α)) (hqx : ∀ v ∈ qx, ValidDist v) :
    ∀ v ∈ fasterIter exp L Ns prior qx, ValidDist v := by
  unfold fasterIter fasterPass
  exact fasterFold_valid exp _ Ns prior hexp hNs hprior _ (descOrder_lt Ns.length) _
    (fasterFold_valid exp _ Ns prior hexp hNs hprior _ (ascOrder_lt Ns.length) qx hqx)

theorem run_FPI_valid (exp log : α → α) (A : List (List Nat → α)) (obs prior : List (List α))
    (No Ns : List Nat) (ni : Nat) (tol : α)
    (hexp : ∀ x, 0 < exp x) (hNs : ∀ n ∈ Ns, 0 < n)
    (hprior : ∀ f, (prior.getD f []).length = Ns.getD f 0) :
    ∀ v ∈ run_FPI exp log A obs prior No Ns ni tol, ValidDist v := by
  unfold run_FPI
  by_cases h1 : Ns.length = 1
  · simp only [h1, if_true]
    intro v hv
    rw [List.mem_singleton] at hv
    subst hv
    apply vadd_softmax_valid exp Ns prior hexp hNs hprior _ 0 (by omega)
    simp [spm_dot_keep]
  · simp only [h1, if_false]
    intro v hv
    exact fpiLoop_preserves _ _ tol (fun qx => ∀ v ∈ qx, ValidDist v)
      (fun qx h => fpiIter_valid exp _ Ns prior hexp hNs hprior qx h) ni _ _
      (uniformQx_valid Ns hNs) v hv

theorem run_FPI_faster_valid (exp log : α → α) (A : List (List Nat → α)) (obs prior : List (List α))
    (No Ns : List Nat) (ni : Nat) (tol : α)
    (hexp : ∀ x, 0 < exp x) (hNs : ∀ n ∈ Ns, 0 < n)
    (hprior : ∀ f, (prior.getD f []).length = Ns.getD f 0) :
    ∀ v ∈ run_FPI_faster exp log A obs prior No Ns ni tol, ValidDist v := by
  unfold run_FPI_faster
  by_cases h1 : Ns.length = 1
  · simp only [h1, if_true]
    intro v hv
    rw [List.mem_singleton] at hv
    subst hv
    apply vadd_softmax_valid exp Ns prior hexp hNs hprior _ 0 (by omega)
    simp [spm_dot_keep]
  · simp only [h1, if_false]
    intro v hv
    exact fpiLoop_preserves _ _ tol (fun qx => ∀ v ∈ qx, ValidDist v)
      (fun qx h => fasterIter_valid exp _ Ns prior hexp hNs hprior qx h) ni _ _
      (uniformQx_valid Ns hNs) v hv

theorem run_FPI_single_factor (exp log : α → α) (A : List (List Nat → α))
    (obs prior : List (List α)) (No : List Nat) (n ni : Nat) (t : α) :
    run_FPI exp log A obs prior No [n] ni t
      = [softmax exp (vadd ((List.range n).map fun i => jointL log A No obs [i])
          (prior.getD 0 []))] := by
  have h0 : run_FPI exp log A obs prior No [n] ni t
      = [softmax exp (vadd (spm_dot_keep (jointL log A No obs) [n] (uniformQx [n]) 0)
          (prior.getD 0 []))] := rfl
  rw [h0, single_factor_marginal]

theorem run_FPI_faster_single_factor (exp log : α → α) (A : List (List Nat → α))
    (obs prior : List (List α)) (No : List Nat) (n ni : Nat) (t : α) :
    run_FPI_faster exp log A obs prior No [n] ni t
      = [softmax exp (vadd ((List.range n).map fun i => jointL log A No obs [i])
          (prior.getD 0 []))] := by
  have h0 : run_FPI_faster exp log A obs prior No [n] ni t
      = [softmax exp (vadd (spm_dot_keep (jointL log A No obs) [n] (uniformQx [n]) 0)
          (prior.getD 0 []))] := rfl
  rw [h0, single_factor_marginal]

/-! ### Claim theorems -/

/-- Claim C2: with exactly one hidden-state factor the FPI solvers return,
in one step, the vector `softmax(L + prior[0])` built from the joint
log-likelihood, and the result is independent of the iteration cap and of
the tolerance (both solvers take the single-factor early-return branch). -/
theorem fpi_single_factor_closed_form (exp log : α → α) (A : List (List Nat → α))
    (obs prior : List (List α)) (No : List Nat) (n ni1 ni2 : Nat) (t1 t2 : α) :
    run_FPI exp log A obs prior No [n] ni1 t1
        = [softmax exp (vadd ((List.range n).map fun i => jointL log A No obs [i])
            (prior.getD 0 []))]
    ∧ run_FPI exp log A obs prior No [n] ni1 t1 = run_FPI exp log A obs prior No [n] ni2 t2
    ∧ run_FPI_faster exp log A obs prior No [n] ni1 t1
        = run_FPI exp log A obs prior No [n] ni1 t1
    ∧ run_FPI_faster exp log A obs prior No [n] ni1 t1
        = run_FPI_faster exp log A obs prior No [n] ni2 t2 :=
  ⟨run_FPI_single_factor exp log A obs prior No n ni1 t1,
    (run_FPI_single_factor exp log A obs prior No n ni1 t1).trans
      (run_FPI_single_factor exp log A obs prior No n ni2 t2).symm,
    (run_FPI_faster_single_factor exp log A obs prior No n ni1 t1).trans
      (run_FPI_single_factor exp log A obs prior No n ni1 t1).symm,
    (run_FPI_faster_single_factor exp log A obs prior No n ni1 t1).trans
      (run_FPI_faster_single_factor exp log A obs prior No n ni2 t2).symm⟩

/-- Claim C4: each of the five recognized but unimplemented method names
makes `update_posterior_states` fail immediately with a "not implemented"
error; no posterior is ever produced for them. -/
theorem dispatcher_rejects_unimplemented (exp log : α → α) (A : List (List Nat → α))
    (obs prior : List (List α)) (No Ns : List Nat) (ni : Nat) (tol : α) (m : String)
    (hm : m ∈ ["VMP", "MMP", "BP", "EP", "CV"]) :
    updatePosteriorStates exp log A obs prior No Ns m ni tol
        = Except.error (m ++ " is not implemented")
    ∧ ∀ qx, updatePosteriorStates exp log A obs prior No Ns m ni tol ≠ Except.ok qx := by
  have herr : updatePosteriorStates exp log A obs prior No Ns m ni tol
      = Except.error (m ++ " is not implemented") := by
    fin_cases hm
    · rfl
    · rfl
    · rfl
    · rfl
    · rfl
  refine ⟨herr, fun qx h => ?_⟩
  rw [herr] at h
  exact Except.noConfusion h

/-- Witness for C4 at the concrete method name "VMP". -/
theorem dispatcher_rejects_unimplemented_witness :
    updatePosteriorStates (fun x => x) (fun x => x) ([] : List (List Nat → ℚ)) [] [] [] []
        "VMP" 10 (1 / 1000)
      = Except.error ("VMP" ++ " is not implemented") :=
  (dispatcher_rejects_unimplemented (fun x => x) (fun x => x) [] [] [] [] [] 10 (1 / 1000)
    "VMP" (by simp)).1

/-- Claim C10: a method string outside the six recognized names selects no
algorithm; the call fails with the unbound-local-variable error raised at
the final `return qx`, and no posterior is returned. -/
theorem dispatcher_unknown_method_fails (exp log : α → α) (A : List (List Nat → α))
    (obs prior : List (List α)) (No Ns : List Nat) (ni : Nat) (tol : α) (m : String)
    (hm : m ∉ ["FPI", "VMP", "MMP", "BP", "EP", "CV"]) :
    updatePosteriorStates exp log A obs prior No Ns m ni tol
        = Except.error ("UnboundLocalError: local variable qx referenced before assignment")
    ∧ ∀ qx, updatePosteriorStates exp log A obs prior No Ns m ni tol ≠ Except.ok qx := by
  simp only [List.mem_cons, List.not_mem_nil, or_false, not_or] at hm
  obtain ⟨h1, h2, h3, h4, h5, h6⟩ := hm
  have herr : updatePosteriorStates exp log A obs prior No Ns m ni tol
      = Except.error ("UnboundLocalError: local variable qx referenced before assignment") := by
    unfold updatePosteriorStates
    rw [if_neg h1, if_neg h2, if_neg h3, if_neg h4, if_neg h5, if_neg h6]
  refine ⟨herr, fun qx h => ?_⟩
  rw [herr] at h
  exact Except.noConfusion h

/-- Witness for C10 at the concrete unknown method name "XYZ". -/
theorem dispatcher_unknown_method_fails_witness :
    updatePosteriorStates (fun x => x) (fun x => x) ([] : List (List Nat → ℚ)) [] [] [] []
        "XYZ" 10 (1 / 1000)
      = Except.error ("UnboundLocalError: local variable qx referenced before assignment") :=
  (dispatcher_unknown_method_fails (fun x => x) (fun x => x) [] [] [] [] [] 10 (1 / 1000)
    "XYZ" (by simp)).1

/-- Amended claim C7: the engine performs no input validation at all — for
every input, degenerate or not (zero factor cardinalities, mismatched
shapes, negative entries in the likelihood), the FPI dispatch succeeds
and a posterior is returned; nothing is rejected before iteration. -/
theorem dispatcher_performs_no_validation (exp log : α → α) (A : List (List Nat → α))
    (obs prior : List (List α)) (No Ns : List Nat) (ni : Nat) (tol : α) :
    updatePosteriorStates exp log A obs prior No Ns ("FPI") ni tol
      = Except.ok (run_FPI exp log A obs prior No Ns ni tol) := rfl

set_option maxHeartbeats 1000000 in
/-- Counterexample for C7: a likelihood tensor whose entries are all `-1`
(negative, hence not a probability tensor) is not rejected — the engine
runs to completion and returns a posterior. -/
theorem dispatcher_accepts_negative_likelihood :
    updatePosteriorStates (fun _ => (1 : ℚ)) (fun x => x) [fun _ => -1] [[1]] [[0, 0]] [1] [2]
        "FPI" 10 (1 / 1000) = Except.ok [[1 / 2, 1 / 2]] := by
  norm_num [updatePosteriorStates, run_FPI, fpiLoop, fpiIter, fpiPass, fpiUpdate, freeEnergy,
    fTerms, entropyTerm, crossTerm, dotv, vadd, spm_dot_keep, spm_dot_full, spm_dot_obs, jointL,
    uniformQx, configs, weightExcept, weightAll, qval, softmax, listMax, epsFloor, ascOrder,
    descOrder, List.range_succ, List.set, List.zipWith, List.replicate]

/-- Claim C1: for more than one factor, `run_FPI` (the solver dispatched
for the "FPI" method) iterates the bidirectional sweep: one iteration is
exactly a fold of the update `qx[f] := softmax(qL + prior[f])` over the
ascending order followed by the descending order, where `qL` marginalizes
the joint log-likelihood over all other factors weighted by the current
(including just-updated within the same iteration) belief vectors. -/
theorem fpi_bidirectional_sweep (exp log : α → α) (A : List (List Nat → α))
    (obs prior : List (List α)) (No Ns : List Nat) (ni : Nat) (tol : α)
    (qx : List (List α)) (h : 1 < Ns.length) :
    run_FPI exp log A obs prior No Ns ni tol
        = (run_FPI_instr exp log A obs prior No Ns ni tol).1
    ∧ fpiIter exp (jointL log A No obs) Ns prior qx
        = (List.range Ns.length ++ (List.range Ns.length).reverse).foldl
            (fun q f => q.set f (softmax exp
              (vadd (marginalizeOthers (jointL log A No obs) Ns q f) (prior.getD f [])))) qx := by
  constructor
  · unfold run_FPI run_FPI_instr
    rw [if_neg (by omega)]
  · have hfun : fpiUpdate exp (jointL log A No obs) Ns prior
        = fun q f => q.set f (softmax exp
            (vadd (marginalizeOthers (jointL log A No obs) Ns q f) (prior.getD f []))) := by
      funext q f
      unfold fpiUpdate
      rw [spm_dot_keep_eq_marginalizeOthers]
    rw [List.foldl_append, ← hfun]
    rfl

/-- Witness for C1 at a concrete two-factor input. -/
theorem fpi_bidirectional_sweep_witness :
    run_FPI (fun _ => (1 : ℚ)) (fun _ => 0) [] [] [[0, 0], [0, 0]] [] [2, 2] 10 (1 / 1000)
        = (run_FPI_instr (fun _ => (1 : ℚ)) (fun _ => 0) [] [] [[0, 0], [0, 0]] [] [2, 2]
            10 (1 / 1000)).1
    ∧ fpiIter (fun _ => (1 : ℚ)) (jointL (fun _ => 0) [] [] []) [2, 2] [[0, 0], [0, 0]]
          [[1, 0], [1, 0]]
        = (List.range ([2, 2] : List Nat).length
              ++ (List.range ([2, 2] : List Nat).length).reverse).foldl
            (fun q f => q.set f (softmax (fun _ => (1 : ℚ))
              (vadd (marginalizeOthers (jointL (fun _ => 0) [] [] []) [2, 2] q f)
                (([[0, 0], [0, 0]] : List (List ℚ)).getD f [])))) [[1, 0], [1, 0]] :=
  fpi_bidirectional_sweep (fun _ => (1 : ℚ)) (fun _ => 0) [] [] [[0, 0], [0, 0]] [] [2, 2]
    10 (1 / 1000) [[1, 0], [1, 0]] (by simp)

/-- Claim C3: for more than one factor both solvers execute at most
`num_iter` iterations of the loop; the returned posterior is the state
after the executed iterations; the loop never continues past an iteration
whose free-energy change fell below `dF_tol`, and it stops before the cap
exactly when the change of its last executed iteration fell below
`dF_tol`. -/
theorem fpi_terminates_within_cap (exp log : α → α) (A : List (List Nat → α))
    (obs prior : List (List α)) (No Ns : List Nat) (ni : Nat) (tol : α)
    (h : 1 < Ns.length) :
    run_FPI exp log A obs prior No Ns ni tol
        = (run_FPI_instr exp log A obs prior No Ns ni tol).1
    ∧ (run_FPI_instr exp log A obs prior No Ns ni tol).2 ≤ ni
    ∧ (run_FPI_instr exp log A obs prior No Ns ni tol).1
        = (run_FPI_states exp log A obs prior No Ns
            (run_FPI_instr exp log A obs prior No Ns ni tol).2).1
    ∧ (∀ k, k + 1 < (run_FPI_instr exp log A obs prior No Ns ni tol).2 →
        ¬ run_FPI_dF exp log A obs prior No Ns k < tol)
    ∧ ((run_FPI_instr exp log A obs prior No Ns ni tol).2 < ni →
        0 < (run_FPI_instr exp log A obs prior No Ns ni tol).2 ∧
          run_FPI_dF exp log A obs prior No Ns
            ((run_FPI_instr exp log A obs prior No Ns ni tol).2 - 1) < tol)
    ∧ run_FPI_faster exp log A obs prior No Ns ni tol
        = (run_FPI_faster_instr exp log A obs prior No Ns ni tol).1
    ∧ (run_FPI_faster_instr exp log A obs prior No Ns ni tol).2 ≤ ni
    ∧ (run_FPI_faster_instr exp log A obs prior No Ns ni tol).1
        = (run_FPI_faster_states exp log A obs prior No Ns
            (run_FPI_faster_instr exp log A obs prior No Ns ni tol).2).1
    ∧ (∀ k, k + 1 < (run_FPI_faster_instr exp log A obs prior No Ns ni tol).2 →
        ¬ run_FPI_faster_dF exp log A obs prior No Ns k < tol)
    ∧ ((run_FPI_faster_instr exp log A obs prior No Ns ni tol).2 < ni →
        0 < (run_FPI_faster_instr exp log A obs prior No Ns ni tol).2 ∧
          run_FPI_faster_dF exp log A obs prior No Ns
            ((run_FPI_faster_instr exp log A obs prior No Ns ni tol).2 - 1) < tol) := by
  refine ⟨?_, ?_, ?_, ?_, ?_, ?_, ?_, ?_, ?_, ?_⟩
  · unfold run_FPI run_FPI_instr
    rw [if_neg (by omega)]
  · exact fpiLoop_le _ _ tol ni _ _
  · exact fpiLoop_qx _ _ tol ni _ _
  · exact fun k hk => fpiLoop_no_early _ _ tol ni _ _ k hk
  · intro hlt
    unfold run_FPI_dF run_FPI_states
    unfold run_FPI_instr at hlt ⊢
    obtain ⟨hpos, hdf⟩ := fpiLoop_stop _ _ tol ni _ _ hlt
    refine ⟨hpos, ?_⟩
    rw [Nat.sub_add_cancel hpos]
    exact hdf
  · unfold run_FPI_faster run_FPI_faster_instr
    rw [if_neg (by omega)]
  · exact fpiLoop_le _ _ tol ni _ _
  · exact fpiLoop_qx _ _ tol ni _ _
  · exact fun k hk => fpiLoop_no_early _ _ tol ni _ _ k hk
  · intro hlt
    unfold run_FPI_faster_dF run_FPI_faster_states
    unfold run_FPI_faster_instr at hlt ⊢
    obtain ⟨hpos, hdf⟩ := fpiLoop_stop _ _ tol ni _ _ hlt
    refine ⟨hpos, ?_⟩
    rw [Nat.sub_add_cancel hpos]
    exact hdf

/-- Witness for C3 at a concrete two-factor input. -/
theorem fpi_terminates_within_cap_witness :
    run_FPI (fun _ => (1 : ℚ)) (fun _ => 0) [] [] [[0, 0], [0, 0]] [] [2, 2] 10 (1 / 1000)
        = (run_FPI_instr (fun _ => (1 : ℚ)) (fun _ => 0) [] [] [[0, 0], [0, 0]] [] [2, 2]
            10 (1 / 1000)).1
    ∧ (run_FPI_instr (fun _ => (1 : ℚ)) (fun _ => 0) [] [] [[0, 0], [0, 0]] [] [2, 2]
          10 (1 / 1000)).2 ≤ 10
    ∧ (run_FPI_instr (fun _ => (1 : ℚ)) (fun _ => 0) [] [] [[0, 0], [0, 0]] [] [2, 2]
          10 (1 / 1000)).1
        = (run_FPI_states (fun _ => (1 : ℚ)) (fun _ => 0) [] [] [[0, 0], [0, 0]] [] [2, 2]
            (run_FPI_instr (fun _ => (1 : ℚ)) (fun _ => 0) [] [] [[0, 0], [0, 0]] [] [2, 2]
              10 (1 / 1000)).2).1
    ∧ (∀ k, k + 1 < (run_FPI_instr (fun _ => (1 : ℚ)) (fun _ => 0) [] [] [[0, 0], [0, 0]] []
          [2, 2] 10 (1 / 1000)).2 →
        ¬ run_FPI_dF (fun _ => (1 : ℚ)) (fun _ => 0) [] [] [[0, 0], [0, 0]] [] [2, 2] k
            < 1 / 1000)
    ∧ ((run_FPI_instr (fun _ => (1 : ℚ)) (fun _ => 0) [] [] [[0, 0], [0, 0]] [] [2, 2]
          10 (1 / 1000)).2 < 10 →
        0 < (run_FPI_instr (fun _ => (1 : ℚ)) (fun _ => 0) [] [] [[0, 0], [0, 0]] [] [2, 2]
            10 (1 / 1000)).2 ∧
          run_FPI_dF (fun _ => (1 : ℚ)) (fun _ => 0) [] [] [[0, 0], [0, 0]] [] [2, 2]
            ((run_FPI_instr (fun _ => (1 : ℚ)) (fun _ => 0) [] [] [[0, 0], [0, 0]] [] [2, 2]
              10 (1 / 1000)).2 - 1) < 1 / 1000)
    ∧ run_FPI_faster (fun _ => (1 : ℚ)) (fun _ => 0) [] [] [[0, 0], [0, 0]] [] [2, 2]
          10 (1 / 1000)
        = (run_FPI_faster_instr (fun _ => (1 : ℚ)) (fun _ => 0) [] [] [[0, 0], [0, 0]] [] [2, 2]
            10 (1 / 1000)).1
    ∧ (run_FPI_faster_instr (fun _ => (1 : ℚ)) (fun _ => 0) [] [] [[0, 0], [0, 0]] [] [2, 2]
          10 (1 / 1000)).2 ≤ 10
    ∧ (run_FPI_faster_instr (fun _ => (1 : ℚ)) (fun _ => 0) [] [] [[0, 0], [0, 0]] [] [2, 2]
          10 (1 / 1000)).1
        = (run_FPI_faster_states (fun _ => (1 : ℚ)) (fun _ => 0) [] [] [[0, 0], [0, 0]] []
            [2, 2]
            (run_FPI_faster_instr (fun _ => (1 : ℚ)) (fun _ => 0) [] [] [[0, 0], [0, 0]] []
              [2, 2] 10 (1 / 1000)).2).1
    ∧ (∀ k, k + 1 < (run_FPI_faster_instr (fun _ => (1 : ℚ)) (fun _ => 0) [] []
          [[0, 0], [0, 0]] [] [2, 2] 10 (1 / 1000)).2 →
        ¬ run_FPI_faster_dF (fun _ => (1 : ℚ)) (fun _ => 0) [] [] [[0, 0], [0, 0]] [] [2, 2] k
            < 1 / 1000)
    ∧ ((run_FPI_faster_instr (fun _ => (1 : ℚ)) (fun _ => 0) [] [] [[0, 0], [0, 0]] [] [2, 2]
          10 (1 / 1000)).2 < 10 →
        0 < (run_FPI_faster_instr (fun _ => (1 : ℚ)) (fun _ => 0) [] [] [[0, 0], [0, 0]] []
            [2, 2] 10 (1 / 1000)).2 ∧
          run_FPI_faster_dF (fun _ => (1 : ℚ)) (fun _ => 0) [] [] [[0, 0], [0, 0]] [] [2, 2]
            ((run_FPI_faster_instr (fun _ => (1 : ℚ)) (fun _ => 0) [] [] [[0, 0], [0, 0]] []
              [2, 2] 10 (1 / 1000)).2 - 1) < 1 / 1000) :=
  fpi_terminates_within_cap (fun _ => (1 : ℚ)) (fun _ => 0) [] [] [[0, 0], [0, 0]] [] [2, 2]
    10 (1 / 1000) (by norm_num)

/-- Claim C5: every per-factor posterior vector returned by either solver
is a valid categorical distribution — entries non-negative and summing to
one — under the modelled softmax (strictly positive exponential), positive
factor cardinalities, and priors of matching shape. -/
theorem fpi_posterior_is_distribution (exp log : α → α) (A : List (List Nat → α))
    (obs prior : List (List α)) (No Ns : List Nat) (ni : Nat) (tol : α)
    (hexp : ∀ x, 0 < exp x) (hNs : ∀ n ∈ Ns, 0 < n)
    (hprior : ∀ f, (prior.getD f []).length = Ns.getD f 0) :
    (∀ v ∈ run_FPI exp log A obs prior No Ns ni tol, ValidDist v)
    ∧ ∀ v ∈ run_FPI_faster exp log A obs prior No Ns ni tol, ValidDist v :=
  ⟨run_FPI_valid exp log A obs prior No Ns ni tol hexp hNs hprior,
    run_FPI_faster_valid exp log A obs prior No Ns ni tol hexp hNs hprior⟩

/-- Witness for C5 at a concrete two-factor input. -/
theorem fpi_posterior_is_distribution_witness :
    (∀ v ∈ run_FPI (fun _ => (1 : ℚ)) (fun _ => 0) [] [] [[0, 0], [0, 0]] [] [2, 2]
        1 (1 / 1000), ValidDist v)
    ∧ ∀ v ∈ run_FPI_faster (fun _ => (1 : ℚ)) (fun _ => 0) [] [] [[0, 0], [0, 0]] [] [2, 2]
        1 (1 / 1000), ValidDist v :=
  fpi_posterior_is_distribution (fun _ => (1 : ℚ)) (fun _ => 0) [] [] [[0, 0], [0, 0]] []
    [2, 2] 1 (1 / 1000) (fun _ => one_pos) (by simp)
    (fun f => by
      match f with
      | 0 => rfl
      | 1 => rfl
      | f + 2 => rfl)

theorem uniformQx_getD (Ns : List Nat) (f : Nat) (hf : f < Ns.length) :
    (uniformQx Ns : List (List α)).getD f []
      = List.replicate (Ns.getD f 0) (1 / (Ns.getD f 0 : α)) := by
  induction Ns generalizing f with
  | nil => simp at hf
  | cons n ns ih =>
    match f with
    | 0 =>
      show ((List.range n).map fun _ => 1 / (n : α)) = _
      rw [List.map_const']
      simp
    | f + 1 =>
      have hf2 : f < ns.length := by simpa using hf
      simpa [uniformQx] using ih f hf2

/-- Amended claim C6: before the first iteration every `qx[f]` is the
uniform distribution over its `Ns_f` outcomes, and the initial `F_prev`
consists of the per-factor entropy and cross-entropy-with-prior terms
only: it differs from the full free-energy formula of section 4.4 by
exactly the expected-log-likelihood term, which is omitted. -/
theorem fpi_initialization (log : α → α) (prior : List (List α)) (Ns : List Nat)
    (L : List Nat → α) :
    (∀ f, f < Ns.length → (uniformQx Ns : List (List α)).getD f []
        = List.replicate (Ns.getD f 0) (1 / (Ns.getD f 0 : α)))
    ∧ fTerms log Ns.length prior (uniformQx Ns)
        = freeEnergy log L Ns prior (uniformQx Ns) + spm_dot_full L Ns (uniformQx Ns) := by
  constructor
  · exact fun f hf => uniformQx_getD Ns f hf
  · unfold freeEnergy
    ring

set_option maxHeartbeats 1000000 in
/-- Counterexample for C6: at a concrete single-factor input with nonzero
joint log-likelihood, the initial `F_prev` computed by the code (entropy
and cross-entropy terms only) differs from the free-energy formula of
section 4.4, which additionally subtracts the expected log-likelihood. -/
theorem fpi_initial_F_counterexample :
    fTerms (fun x => x) 1 [[(0 : ℚ), 0]] (uniformQx [2])
      ≠ freeEnergy (fun x => x) (jointL (fun x => x) [fun _ => 1] [1] [[1]]) [2]
          [[(0 : ℚ), 0]] (uniformQx [2]) := by
  norm_num [fTerms, freeEnergy, entropyTerm, crossTerm, dotv, vadd, spm_dot_full, spm_dot_obs,
    jointL, uniformQx, configs, weightAll, qval, epsFloor, List.range_succ, List.zipWith, List.replicate]

/-- Amended claim C8: the solvers return only the posterior; a run that
converged early and a run that exhausted its iteration cap are
indistinguishable from the return value whenever their final beliefs
agree — the two return paths are conflated. -/
theorem fpi_cap_exhaustion_not_signalled (exp log : α → α) (A : List (List Nat → α))
    (obs prior : List (List α)) (No Ns : List Nat) (ni1 ni2 : Nat) (t1 t2 : α)
    (h : 1 < Ns.length)
    (hEarly : (run_FPI_instr exp log A obs prior No Ns ni1 t1).2 < ni1)
    (hCap : (run_FPI_instr exp log A obs prior No Ns ni2 t2).2 = ni2)
    (hqx : (run_FPI_instr exp log A obs prior No Ns ni1 t1).1
        = (run_FPI_instr exp log A obs prior No Ns ni2 t2).1) :
    run_FPI exp log A obs prior No Ns ni1 t1 = run_FPI exp log A obs prior No Ns ni2 t2 := by
  have h1 : run_FPI exp log A obs prior No Ns ni1 t1
      = (run_FPI_instr exp log A obs prior No Ns ni1 t1).1 := by
    unfold run_FPI run_FPI_instr
    rw [if_neg (by omega)]
  have h2 : run_FPI exp log A obs prior No Ns ni2 t2
      = (run_FPI_instr exp log A obs prior No Ns ni2 t2).1 := by
    unfold run_FPI run_FPI_instr
    rw [if_neg (by omega)]
  rw [h1, h2, hqx]

set_option maxHeartbeats 1000000 in
/-- Counterexample for C8: a run that converges at its first iteration
(cap 10, generous tolerance) and a run that exhausts its cap of 1 (zero
tolerance is never met) return exactly the same value — nothing in the
return distinguishes the exhausted budget from early convergence. -/
theorem fpi_cap_signal_counterexample :
    run_FPI (fun _ => (1 : ℚ)) (fun _ => 0) [] [] [[0, 0], [0, 0]] [] [2, 2] 10 (1 / 1000)
        = run_FPI (fun _ => (1 : ℚ)) (fun _ => 0) [] [] [[0, 0], [0, 0]] [] [2, 2] 1 0
    ∧ (run_FPI_instr (fun _ => (1 : ℚ)) (fun _ => 0) [] [] [[0, 0], [0, 0]] [] [2, 2]
          10 (1 / 1000)).2 < 10
    ∧ (run_FPI_instr (fun _ => (1 : ℚ)) (fun _ => 0) [] [] [[0, 0], [0, 0]] [] [2, 2]
          1 0).2 = 1 := by
  refine ⟨?_, ?_, ?_⟩
  · norm_num [run_FPI, fpiLoop, fpiIter, fpiPass, fpiUpdate, freeEnergy, fTerms, entropyTerm,
      crossTerm, dotv, vadd, spm_dot_keep, spm_dot_full, spm_dot_obs, jointL, uniformQx, configs,
      weightExcept, weightAll, qval, softmax, listMax, epsFloor, ascOrder, descOrder,
      List.range_succ, List.set, List.zipWith, List.replicate]
  · norm_num [run_FPI_instr, fpiLoop, fpiIter, fpiPass, fpiUpdate, freeEnergy, fTerms,
      entropyTerm, crossTerm, dotv, vadd, spm_dot_keep, spm_dot_full, spm_dot_obs, jointL,
      uniformQx, configs, weightExcept, weightAll, qval, softmax, listMax, epsFloor, ascOrder,
      descOrder, List.range_succ, List.set, List.zipWith, List.replicate]
  · norm_num [run_FPI_instr, fpiLoop, fpiIter, fpiPass, fpiUpdate, freeEnergy, fTerms,
      entropyTerm, crossTerm, dotv, vadd, spm_dot_keep, spm_dot_full, spm_dot_obs, jointL,
      uniformQx, configs, weightExcept, weightAll, qval, softmax, listMax, epsFloor, ascOrder,
      descOrder, List.range_succ, List.set, List.zipWith, List.replicate]

set_option maxHeartbeats 1000000 in
/-- Witness for C8 at the concrete early-converged and cap-exhausted runs. -/
theorem fpi_cap_exhaustion_not_signalled_witness :
    run_FPI (fun _ => (1 : ℚ)) (fun _ => 0) [] [] [[0, 0], [0, 0]] [] [2, 2] 10 (1 / 1000)
      = run_FPI (fun _ => (1 : ℚ)) (fun _ => 0) [] [] [[0, 0], [0, 0]] [] [2, 2] 1 0 :=
  fpi_cap_exhaustion_not_signalled (fun _ => (1 : ℚ)) (fun _ => 0) [] [] [[0, 0], [0, 0]] []
    [2, 2] 10 1 (1 / 1000) 0 (by simp)
    (by norm_num [run_FPI_instr, fpiLoop, fpiIter, fpiPass, fpiUpdate, freeEnergy, fTerms,
      entropyTerm, crossTerm, dotv, vadd, spm_dot_keep, spm_dot_full, spm_dot_obs, jointL,
      uniformQx, configs, weightExcept, weightAll, qval, softmax, listMax, epsFloor, ascOrder,
      descOrder, List.range_succ, List.set, List.zipWith, List.replicate])
    (by norm_num [run_FPI_instr, fpiLoop, fpiIter, fpiPass, fpiUpdate, freeEnergy, fTerms,
      entropyTerm, crossTerm, dotv, vadd, spm_dot_keep, spm_dot_full, spm_dot_obs, jointL,
      uniformQx, configs, weightExcept, weightAll, qval, softmax, listMax, epsFloor, ascOrder,
      descOrder, List.range_succ, List.set, List.zipWith, List.replicate])
    (by norm_num [run_FPI_instr, fpiLoop, fpiIter, fpiPass, fpiUpdate, freeEnergy, fTerms,
      entropyTerm, crossTerm, dotv, vadd, spm_dot_keep, spm_dot_full, spm_dot_obs, jointL,
      uniformQx, configs, weightExcept, weightAll, qval, softmax, listMax, epsFloor, ascOrder,
      descOrder, List.range_succ, List.set, List.zipWith, List.replicate])

end PymdpKG
